import Mathlib

/-
Verification of the reference-store subsystem (graph/tags.go).

The Go source keeps the store state in two hash maps:
  TagStore.Repositories : map[string]Repository
  Repository            : map[string]string      (reference key -> image ID)
Go maps are modelled as association lists `List (String × α)`: the list
order stands for the (unspecified) iteration order of the hash map, and
`lookupMap` / `setMap` / `eraseMap` mirror map indexing, assignment and
`delete`.  Go code dealing with files, the external image graph and the
registry helper package is modelled as explained at each definition.
-/

set_option autoImplicit false

namespace Moby

/-- Reference key (tag or digest) to image ID, as in `type Repository map[string]string`. -/
abbrev Repository := List (String × String)

/-- `TagStore.Repositories`: repository full name to `Repository`. -/
abbrev Repos := List (String × Repository)

/-- Go map indexing `m[k]` (with its `ok` flag as `Option`). -/
def lookupMap {α : Type} : List (String × α) → String → Option α
  | [], _ => none
  | p :: rest, k => if p.1 = k then some p.2 else lookupMap rest k

/-- Go map assignment `m[k] = v`: replaces the binding if present, otherwise adds it. -/
def setMap {α : Type} : List (String × α) → String → α → List (String × α)
  | [], k, v => [(k, v)]
  | p :: rest, k, v => if p.1 = k then (k, v) :: rest else p :: setMap rest k v

/-- Go `delete(m, k)`. -/
def eraseMap {α : Type} : List (String × α) → String → List (String × α)
  | [], _ => []
  | p :: rest, k => if p.1 = k then eraseMap rest k else p :: eraseMap rest k

/-- The keys of the association list are pairwise distinct (true of every Go map). -/
abbrev nodupKeys {α : Type} (m : List (String × α)) : Prop := (m.map Prod.fst).Nodup

instance {ε α : Type} [DecidableEq ε] [DecidableEq α] : DecidableEq (Except ε α) := fun a b =>
  match a, b with
  | .error e, .error f =>
    if h : e = f then .isTrue (by rw [h]) else .isFalse (fun hh => by cases hh; exact h rfl)
  | .error _, .ok _ => .isFalse (fun hh => by cases hh)
  | .ok _, .error _ => .isFalse (fun hh => by cases hh)
  | .ok x, .ok y =>
    if h : x = y then .isTrue (by rw [h]) else .isFalse (fun hh => by cases hh; exact h rfl)

theorem lookup_setMap_self {α : Type} (m : List (String × α)) (k : String) (v : α) :
    lookupMap (setMap m k v) k = some v := by
  induction m with
  | nil => simp [setMap, lookupMap]
  | cons p rest ih =>
    by_cases h : p.1 = k
    · simp [setMap, h, lookupMap]
    · simp [setMap, h, lookupMap, ih]

theorem lookup_setMap_ne {α : Type} (m : List (String × α)) (k k' : String) (v : α)
    (h : k' ≠ k) : lookupMap (setMap m k v) k' = lookupMap m k' := by
  induction m with
  | nil => simp [setMap, lookupMap, Ne.symm h]
  | cons p rest ih =>
    by_cases hp : p.1 = k
    · subst hp
      simp [setMap, lookupMap, Ne.symm h]
    · by_cases hp' : p.1 = k'
      · simp [setMap, hp, lookupMap, hp', h]
      · simp [setMap, hp, lookupMap, hp', ih]

theorem lookup_eraseMap_self {α : Type} (m : List (String × α)) (k : String) :
    lookupMap (eraseMap m k) k = none := by
  induction m with
  | nil => simp [eraseMap, lookupMap]
  | cons p rest ih =>
    by_cases h : p.1 = k
    · simp [eraseMap, h, ih]
    · simp [eraseMap, h, lookupMap, ih]

theorem lookup_eraseMap_ne {α : Type} (m : List (String × α)) (k k' : String)
    (h : k' ≠ k) : lookupMap (eraseMap m k) k' = lookupMap m k' := by
  induction m with
  | nil => simp [eraseMap]
  | cons p rest ih =>
    by_cases hp : p.1 = k
    · subst hp
      simp [eraseMap, lookupMap, Ne.symm h, ih]
    · by_cases hp' : p.1 = k'
      · simp [eraseMap, hp, lookupMap, hp', h]
      · simp [eraseMap, hp, lookupMap, hp', ih]

theorem mem_setMap {α : Type} (m : List (String × α)) (k : String) (v : α) (p : String × α)
    (h : p ∈ setMap m k v) : p = (k, v) ∨ p ∈ m := by
  induction m with
  | nil =>
    simp [setMap] at h
    exact Or.inl h
  | cons q rest ih =>
    by_cases hq : q.1 = k
    · simp [setMap, hq] at h
      rcases h with h | h
      · exact Or.inl h
      · exact Or.inr (List.mem_cons_of_mem _ h)
    · simp [setMap, hq] at h
      rcases h with h | h
      · exact Or.inr (by simp [h])
      · rcases ih h with h' | h'
        · exact Or.inl h'
        · exact Or.inr (List.mem_cons_of_mem _ h')

theorem mem_eraseMap {α : Type} (m : List (String × α)) (k : String) (p : String × α)
    (h : p ∈ eraseMap m k) : p ∈ m := by
  induction m with
  | nil => simp [eraseMap] at h
  | cons q rest ih =>
    by_cases hq : q.1 = k
    · simp [eraseMap, hq] at h
      exact List.mem_cons_of_mem _ (ih h)
    · simp [eraseMap, hq] at h
      rcases h with h | h
      · simp [h]
      · exact List.mem_cons_of_mem _ (ih h)

/-
Validation (tags.go lines 27-31 and 433-462).

  validTagName = regexp.MustCompile(`^[\w][\w.-]{0,127}$`)
  validDigest  = regexp.MustCompile(`[a-zA-Z0-9-_+.]+:[a-fA-F0-9]+`)

`validTagName` is anchored, so `MatchString` is a whole-string match.
`validDigest` is NOT anchored, so `MatchString` asks whether the string
CONTAINS a substring of the form `[a-zA-Z0-9-_+.]+:[a-fA-F0-9]+`.  A
substring of that form exists iff three consecutive characters
name-char, colon, hex-char occur (take the last name-char of the first
group and the first hex-char of the second); `hasDigestMatch` scans for
that triple.
-/

/-- Go regexp `\w` = `[0-9A-Za-z_]`. -/
def isWordChar (c : Char) : Bool := c.isAlphanum || c = '_'

/-- Character class `[\w.-]`. -/
def isTagRestChar (c : Char) : Bool := isWordChar c || c = '.' || c = '-'

/-- Character class `[a-zA-Z0-9-_+.]` of `validDigest`. -/
def isDigestNameChar (c : Char) : Bool := c.isAlphanum || c = '-' || c = '_' || c = '+' || c = '.'

/-- Character class `[a-fA-F0-9]`. -/
def isHexChar (c : Char) : Bool :=
  c.isDigit || (decide ('a' ≤ c) && decide (c ≤ 'f')) || (decide ('A' ≤ c) && decide (c ≤ 'F'))

/-- Whole-string match of the anchored `^[\w][\w.-]{0,127}$`. -/
def matchesTagPattern (s : String) : Bool :=
  match s.data with
  | [] => false
  | c :: rest => isWordChar c && decide (rest.length ≤ 127) && rest.all isTagRestChar

/-- Substring match of the unanchored `[a-zA-Z0-9-_+.]+:[a-fA-F0-9]+`
(see the note above: it reduces to finding a name-char, colon, hex-char triple). -/
def hasDigestMatch : List Char → Bool
  | a :: b :: c :: rest =>
    (isDigestNameChar a && (b == ':') && isHexChar c) || hasDigestMatch (b :: c :: rest)
  | _ => false

/-- Whole-string match of `[a-zA-Z0-9-_+.]+:[a-fA-F0-9]+` (what the claim
asserts `validateDigest` checks): name-chars up to the first colon, then hex. -/
def fullDigestBool (l : List Char) : Bool :=
  match l.dropWhile isDigestNameChar with
  | [] => false
  | c :: hs =>
    (c == ':') && !(l.takeWhile isDigestNameChar).isEmpty && !hs.isEmpty && hs.all isHexChar

/-- `validateRepoName` (tags.go 433-441).  Error strings are paraphrased. -/
def validateRepoName (name : String) : Except String Unit :=
  if name = "" then .error "Repository name cant be empty"
  else if name = "scratch" then .error "scratch is a reserved name"
  else .ok ()

/-- `ValidateTagName` (tags.go 444-452): empty check, then `validTagName.MatchString`. -/
def ValidateTagName (name : String) : Except String Unit :=
  if name = "" then .error "tag name cant be empty"
  else if matchesTagPattern name then .ok ()
  else .error ("Illegal tag name: " ++ name)

/-- `validateDigest` (tags.go 454-462): empty check, then `validDigest.MatchString`
(substring semantics, the pattern being unanchored). -/
def validateDigest (dgst : String) : Except String Unit :=
  if dgst = "" then .error "digest cant be empty"
  else if hasDigestMatch dgst.data then .ok ()
  else .error ("illegal digest: " ++ dgst)

/-- Declarative reading of a whole-string match of `^[\w][\w.-]{0,127}$`. -/
def FullTagProp (s : String) : Prop :=
  ∃ c rest, s.data = c :: rest ∧ isWordChar c = true ∧ rest.length ≤ 127 ∧
    ∀ x ∈ rest, isTagRestChar x = true

/-- Declarative reading of "contains a substring matching `[a-zA-Z0-9-_+.]+:[a-fA-F0-9]+`". -/
def ContainsDigestProp (s : String) : Prop :=
  ∃ pre as hs post, s.data = pre ++ as ++ ':' :: hs ++ post ∧
    as ≠ [] ∧ (∀ x ∈ as, isDigestNameChar x = true) ∧
    hs ≠ [] ∧ (∀ x ∈ hs, isHexChar x = true)

/-- Declarative reading of a whole-string match of `[a-zA-Z0-9-_+.]+:[a-fA-F0-9]+`. -/
def FullDigestProp (s : String) : Prop :=
  ∃ as hs, s.data = as ++ ':' :: hs ∧
    as ≠ [] ∧ (∀ x ∈ as, isDigestNameChar x = true) ∧
    hs ≠ [] ∧ (∀ x ∈ hs, isHexChar x = true)

/-
Registry helpers.  tags.go calls `registry.NormalizeLocalName`,
`registry.RepositoryNameHasIndex`, `registry.SplitReposName` and reads
`registry.RegistryList`; the registry package is not part of the provided
sources, so the store operations take these helpers as an explicit
`RegistryCtx` argument and the theorems quantify over it.  A concrete
instance modelled from the spec is provided below for the witnesses and
counterexamples.
-/

/-- The registry-package helpers used by tags.go, passed explicitly. -/
structure RegistryCtx where
  /-- `registry.NormalizeLocalName`. -/
  normalizeLocalName : String → String
  /-- `registry.RepositoryNameHasIndex`. -/
  repositoryNameHasIndex : String → Bool
  /-- `registry.SplitReposName(name, false)`, returning (indexName, remoteName). -/
  splitReposName : String → String × String
  /-- `registry.RegistryList` (ordered, first entry is the default registry). -/
  registryList : List String

/-- Characters of the first path component (before the first slash). -/
def firstComponent : List Char → List Char
  | [] => []
  | c :: cs => if c = '/' then [] else c :: firstComponent cs

/-- Characters after the first slash, or `none` when there is no slash. -/
def afterSlash : List Char → Option (List Char)
  | [] => none
  | c :: cs => if c = '/' then some cs else afterSlash cs

/-- Modelled from the spec: a leading path component is an index (registry) name
when it contains a dot or a colon, equals "localhost" (section 4.1, Parse), or is one
of the configured registries (so that scenario S3 resolves r1-prefixed names). -/
def looksLikeIndex (registryList : List String) (comp : List Char) : Bool :=
  comp.contains '.' || comp.contains ':' || comp == "localhost".data ||
    registryList.contains (String.mk comp)

/-- Modelled from the spec: `registry.SplitReposName(name, false)` -- split a
repository name into (indexName, remoteName); unqualified names give an empty
index and are returned whole. -/
def splitReposNameSpec (registryList : List String) (name : String) : String × String :=
  match afterSlash name.data with
  | none => ("", name)
  | some rest =>
    let comp := firstComponent name.data
    if looksLikeIndex registryList comp then (String.mk comp, String.mk rest) else ("", name)

/-- Modelled from the spec: `registry.RepositoryNameHasIndex`. -/
def repositoryNameHasIndexSpec (registryList : List String) (name : String) : Bool :=
  (splitReposNameSpec registryList name).1 != ""

/-- Modelled from the spec: `registry.NormalizeLocalName` -- lowercase the index
name and prefix the default (first) registry to unqualified names (section 4.1,
Canonicalize).  The library-prefix collapse is omitted: per scenario S1 the
stored name keeps the library/ component. -/
def normalizeLocalNameSpec (registryList : List String) (name : String) : String :=
  match afterSlash name.data with
  | some rest =>
    let comp := firstComponent name.data
    if looksLikeIndex registryList comp then
      String.mk (comp.map Char.toLower) ++ "/" ++ String.mk rest
    else registryList.headD "docker.io" ++ "/" ++ name
  | none => registryList.headD "docker.io" ++ "/" ++ name

/-- The spec-modelled registry context for a given registry list. -/
def specCtx (registryList : List String) : RegistryCtx :=
  ⟨normalizeLocalNameSpec registryList, repositoryNameHasIndexSpec registryList,
   splitReposNameSpec registryList, registryList⟩

/-
The candidate enumeration, tags.go 343-374 (`getRepositoryList`).  The four
steps of the source are kept apart: exact match, match after normalization,
registry-list-prefixed matches (the loop skips index 0 with `if i < 1 {
continue }` and collects every list entry into `defaultRegistries`), and the
final `for name, r := range store.Repositories` walk whose order is the
iteration order of the map (the order of the modelling association list).
-/

/-- `getRepositoryList` (tags.go 343-374). -/
def getRepositoryList (ctx : RegistryCtx) (repos : Repos) (repoName : String) :
    List (String × Repository) :=
  let r1 : List (String × Repository) :=
    match lookupMap repos repoName with
    | some r => [(repoName, r)]
    | none => []
  let normalized := ctx.normalizeLocalName repoName
  let r2 : List (String × Repository) :=
    match lookupMap repos normalized with
    | some r => r1 ++ [(normalized, r)]
    | none => r1
  if ctx.repositoryNameHasIndex repoName then r2
  else
    let r3 := r2 ++ (ctx.registryList.drop 1).filterMap (fun reg =>
      let fqn := ctx.normalizeLocalName (reg ++ "/" ++ repoName)
      (lookupMap repos fqn).map (fun r => (fqn, r)))
    r3 ++ repos.filterMap (fun p =>
      let s := ctx.splitReposName p.1
      if s.1 != "" && s.2 == repoName && !(ctx.registryList.contains s.1)
      then some p else none)

/-
Mutating operations.  Each one, in the source, takes the store lock,
calls `reload()` and finally `save()`.  The cores below are functions of
the post-reload repositories map and return either an error or the new
map; every early `return err` in the source happens before any mutation,
and the single mutation (`repo[tag] = img.ID`, `repoRefs[digest] = img.ID`,
or the `delete` calls) fully precedes the single `save()` call, so the
save step is factored into the uniform wrapper `runWithSave` below.

`store.LookupImage(imageName)` (tags.go 117-146) resolves a name to an
image via `GetImage` and the external content-addressed `Graph`; since
the `Graph` is outside the provided sources, the resolution is passed to
the cores as a function argument `lookupImage` returning the image ID
(`img.ID`) or an error.
-/

/-- tags.go 270-274: the repository name under which the binding is stored. -/
def normalizedRepoName (ctx : RegistryCtx) (repoName : String) (keepUnqualified : Bool) : String :=
  let normalized := ctx.normalizeLocalName repoName
  if keepUnqualified && !(ctx.repositoryNameHasIndex repoName) then
    (ctx.splitReposName normalized).2
  else normalized

/-- The Conflict error of tags.go line 280. -/
def conflictTagMsg (tag old : String) : String :=
  "Conflict: Tag " ++ tag ++ " is already set to image " ++ old ++
    ", if you want to replace it, please use -f option"

/-- The Conflict error of tags.go line 327. -/
def conflictDigestMsg (dgst old : String) : String :=
  "Conflict: Digest " ++ dgst ++ " is already set to image " ++ old

/-- `SetLoad` (tags.go 251-295) up to the `save()` call.  The rename notice
written to the `out` writer in the force branch is not modelled (it does not
affect the store state). -/
def setLoadCore (ctx : RegistryCtx) (lookupImage : String → Except String String)
    (repos : Repos) (repoName tag0 imageName : String) (force keepUnqualified : Bool) :
    Except String Repos :=
  match lookupImage imageName with
  | .error e => .error e
  | .ok imgID =>
    let tag := if tag0 = "" then "latest" else tag0
    match validateRepoName repoName with
    | .error e => .error e
    | .ok _ =>
      match ValidateTagName tag with
      | .error e => .error e
      | .ok _ =>
        let normalized := normalizedRepoName ctx repoName keepUnqualified
        match lookupMap repos normalized with
        | some repo =>
          match lookupMap repo tag with
          | some old =>
            if force then .ok (setMap repos normalized (setMap repo tag imgID))
            else .error (conflictTagMsg tag old)
          | none => .ok (setMap repos normalized (setMap repo tag imgID))
        | none => .ok (setMap repos normalized (setMap [] tag imgID))

/-- `SetDigest` (tags.go 298-332) up to the `save()` call. -/
def setDigestCore (ctx : RegistryCtx) (lookupImage : String → Except String String)
    (repos : Repos) (repoName dgst imageName : String) (keepUnqualified : Bool) :
    Except String Repos :=
  match lookupImage imageName with
  | .error e => .error e
  | .ok imgID =>
    match validateRepoName repoName with
    | .error e => .error e
    | .ok _ =>
      match validateDigest dgst with
      | .error e => .error e
      | .ok _ =>
        let normalized := normalizedRepoName ctx repoName keepUnqualified
        match lookupMap repos normalized with
        | none => .ok (setMap repos normalized (setMap [] dgst imgID))
        | some repoRefs =>
          match lookupMap repoRefs dgst with
          | some oldID =>
            if oldID = imgID then .ok (setMap repos normalized (setMap repoRefs dgst imgID))
            else .error (conflictDigestMsg dgst oldID)
          | none => .ok (setMap repos normalized (setMap repoRefs dgst imgID))

/-- The candidate walk of `Delete` (tags.go 215-244): first candidate that
matches is deleted; a candidate lacking the reference records a
NoSuchReference error and the walk continues; no candidate at all gives
NoSuchRepository. -/
def deleteLoop (repos : Repos) (repoName ref : String) :
    List (String × Repository) → Option String → Except String Repos
  | [], none => .error ("No such repository: " ++ repoName)
  | [], some e => .error e
  | (name, repoRefs) :: rest, _ =>
    if ref = "" then .ok (eraseMap repos name)
    else
      match lookupMap repoRefs ref with
      | some _ =>
        let repoRefs2 := eraseMap repoRefs ref
        .ok (if repoRefs2.isEmpty then eraseMap repos name else setMap repos name repoRefs2)
      | none =>
        deleteLoop repos repoName ref rest
          (some ("No such reference: " ++ repoName ++ ":" ++ ref))

/-- `Delete` (tags.go 207-245) up to the `save()` call; `.ok` means the source
returned `deleted = true`.  The unused `errAcc` argument mirrors the `err`
variable of the source. -/
def deleteCore (ctx : RegistryCtx) (repos : Repos) (repoName ref : String) :
    Except String Repos :=
  deleteLoop repos repoName ref (getRepositoryList ctx repos repoName) none

/-- What one mutating call did to the persistence file.  `save()` is an
in-place `ioutil.WriteFile` (see the Persistence section below), so a failed
write gives no guarantee about the resulting file: it may hold the old bytes,
a truncated prefix of the new bytes, or the full new bytes. -/
inductive DiskOutcome where
  /-- `save()` completed and the file holds the snapshot `d`. -/
  | complete (d : Repos)
  /-- `save()` was attempted and failed; the file is in an unspecified,
  possibly torn state (the in-place write gives no atomicity). -/
  | failed
deriving DecidableEq

/-- Observable outcome of one mutating call: the returned error (if any), the
in-memory `Repositories` map after the call, and what happened to the
persistence file (`none` when the operation returned before reaching
`save()`, so the file still holds what it held before the call). -/
structure MutResult where
  err : Option String
  mem : Repos
  disk : Option DiskOutcome
deriving DecidableEq

/-- The persistence-failure error (stands for whatever I/O error `save()` surfaces). -/
def persistErrMsg : String := "persistence error: write failed"

/-- Factored save step: an early error returns before `save()` is reached, so
the map and the file are untouched; a successful mutation installs the new map
in memory and then `save()` either completes (saveOk) or fails, a failure
leaving the file in the unspecified state `DiskOutcome.failed`.  In the source
the mutation textually precedes `save()`, which is why `mem` holds the mutated
map even when the save fails. -/
def runWithSave (repos : Repos) (saveOk : Bool) : Except String Repos → MutResult
  | .error e => ⟨some e, repos, none⟩
  | .ok r =>
    if saveOk then ⟨none, r, some (.complete r)⟩ else ⟨some persistErrMsg, r, some .failed⟩

/-- `SetLoad` with its save step (also `Tag`, tags.go 247-249, which is
`SetLoad` with a nil writer). -/
def SetLoad (ctx : RegistryCtx) (lookupImage : String → Except String String)
    (repos : Repos) (repoName tag imageName : String) (force keepUnqualified saveOk : Bool) :
    MutResult :=
  runWithSave repos saveOk
    (setLoadCore ctx lookupImage repos repoName tag imageName force keepUnqualified)

/-- `SetDigest` with its save step.  Note the function has no force option. -/
def SetDigest (ctx : RegistryCtx) (lookupImage : String → Except String String)
    (repos : Repos) (repoName dgst imageName : String) (keepUnqualified saveOk : Bool) :
    MutResult :=
  runWithSave repos saveOk
    (setDigestCore ctx lookupImage repos repoName dgst imageName keepUnqualified)

/-- `Delete` with its save step; the Bool is the `deleted` result (on a failed
save the source returns `deleted = true` together with the save error). -/
def Delete (ctx : RegistryCtx) (repos : Repos) (repoName ref : String) (saveOk : Bool) :
    Bool × MutResult :=
  match deleteCore ctx repos repoName ref with
  | .error e => (false, ⟨some e, repos, none⟩)
  | .ok r => (true, runWithSave repos saveOk (.ok r))

/-
Reverse index and `DeleteAll` (tags.go 162-205).
-/

/-- Modelled from the spec: `utils.ImageReference` is outside the provided
sources; section 4.2 has `ByID` materialize "repo:tag" strings, so references
are joined with a colon. -/
def imageReference (repoName ref : String) : String := repoName ++ ":" ++ ref

/-- Insert into an ascending list of strings. -/
def insertSorted (s : String) : List String → List String
  | [] => [s]
  | x :: xs => if decide (x < s) then x :: insertSorted s xs else s :: x :: xs

/-- Ascending sort, as `sort.Strings` produces (tags.go line 173 keeps the
name list sorted after every append). -/
def sortStrings (l : List String) : List String := l.foldr insertSorted []

/-- The names `ByID()[id]` holds for one image ID (tags.go 162-178): every
reference to `id`, rendered by `imageReference` and sorted. -/
def byID (repos : Repos) (id : String) : List String :=
  sortStrings ((repos.map (fun p =>
    p.2.filterMap (fun q => if q.2 = id then some (imageReference p.1 q.1) else none))).flatten)

/-- Go `strings.Split(s, ":")`. -/
def splitColonChars : List Char → List Char → List (List Char)
  | [], acc => [acc.reverse]
  | c :: cs, acc =>
    if c = ':' then acc.reverse :: splitColonChars cs [] else splitColonChars cs (c :: acc)

/-- Go `strings.Split(s, ":")` on strings. -/
def splitColon (s : String) : List String := (splitColonChars s.data []).map String.mk

/-- The loop body of `DeleteAll` (tags.go 192-203): each name is split on
":" and only the first two pieces are passed to `Delete`; a name without a
colon deletes the whole repository. -/
def deleteAllLoop (ctx : RegistryCtx) : List String → Repos → Except String Repos
  | [], repos => .ok repos
  | n :: ns, repos =>
    let args := if n.data.contains ':' then
        let parts := splitColon n
        (parts.headD "", (parts.drop 1).headD "")
      else (n, "")
    match deleteCore ctx repos args.1 args.2 with
    | .error e => .error e
    | .ok repos2 => deleteAllLoop ctx ns repos2

/-- `DeleteAll` (tags.go 187-205), with every inner `save()` succeeding. -/
def DeleteAll (ctx : RegistryCtx) (repos : Repos) (id : String) : Except String Repos :=
  deleteAllLoop ctx (byID repos id) repos

/-
Read operations (tags.go 162-178, 376-416).  A `StoreState` carries the
in-memory map and the persisted file contents.  `reload()` (tags.go
106-115) unmarshals the file into the existing `Repositories` map: keys
present in the file replace the in-memory entry, keys only in memory
survive -- `reloadRepos` folds the disk entries into the memory map.
`Get` calls `reload()` before answering (line 379); `GetImage` and `ByID`
do not reload and answer from the in-memory map alone.
-/

/-- In-memory map and persisted file contents. -/
structure StoreState where
  mem : Repos
  disk : Repos
deriving DecidableEq

/-- `reload()`: JSON unmarshal of the file into the existing map. -/
def reloadRepos (mem disk : Repos) : Repos :=
  disk.foldl (fun m p => setMap m p.1 p.2) mem

/-- The repository `Get` answers with (tags.go 382-388): the first candidate. -/
def getCore (ctx : RegistryCtx) (repos : Repos) (repoName : String) : Option Repository :=
  (getRepositoryList ctx repos repoName).head?.map Prod.snd

/-- `Get` (tags.go 376-389): lock, reload, first candidate. -/
def Get (ctx : RegistryCtx) (st : StoreState) (repoName : String) :
    Option Repository × StoreState :=
  let m := reloadRepos st.mem st.disk
  (getCore ctx m repoName, ⟨m, st.disk⟩)

/-- The two-pass search of `GetImage` (tags.go 395-416) over a repositories
map, returning the image ID handed to `store.graph.Get` (the graph itself is
outside the provided sources): exact reference key first, then any stored ID
having `refOrID` as a prefix. -/
def getImageCore (ctx : RegistryCtx) (repos : Repos) (repoName refOrID : String) :
    Option String :=
  let matching := getRepositoryList ctx repos repoName
  match (matching.filterMap (fun p => lookupMap p.2 refOrID)).head? with
  | some revision => some revision
  | none =>
    (matching.filterMap (fun p =>
      (p.2.find? (fun q => refOrID.data.isPrefixOf q.2.data)).map Prod.snd)).head?

/-- `GetImage` (tags.go 391-416): it takes the lock but performs no reload,
so it reads the in-memory map only. -/
def GetImage (ctx : RegistryCtx) (st : StoreState) (repoName refOrID : String) :
    Option String :=
  getImageCore ctx st.mem repoName refOrID

/-- `ByID` restricted to one image ID (tags.go 162-178): it takes the lock but
performs no reload, so it reads the in-memory map only. -/
def ByID (st : StoreState) (id : String) : List String := byID st.mem id

/-
Transfer coordination (tags.go 464-505).  The two pools map keys to
`chan struct` signals; a channel is modelled by a numeric identity drawn
from `nextId`, and `close(c)` adds the identity to `closedSignals` (the
set of signals already broadcast).
-/

/-- `pullingPool` / `pushingPool` with the channel allocator and the set of
closed (broadcast) signals. -/
structure PoolState where
  pulling : List (String × Nat)
  pushing : List (String × Nat)
  nextId : Nat
  closedSignals : List Nat
deriving DecidableEq

/-- The initial pools of `NewTagStore` (tags.go 78-79). -/
def initPools : PoolState := ⟨[], [], 0, []⟩

/-- The error of tags.go line 469. -/
def pullInProgressMsg (key : String) : String := "pull " ++ key ++ " is already in progress"

/-- The error of tags.go line 472. -/
def pushInProgressMsg (key : String) : String := "push " ++ key ++ " is already in progress"

/-- `poolAdd` (tags.go 464-485): return (channel, error, new state).  Note the
source checks `pullingPool` first and `pushingPool` second whatever `kind` is. -/
def poolAdd (st : PoolState) (kind key : String) : Option Nat × Option String × PoolState :=
  match lookupMap st.pulling key with
  | some c => (some c, some (pullInProgressMsg key), st)
  | none =>
    match lookupMap st.pushing key with
    | some c => (some c, some (pushInProgressMsg key), st)
    | none =>
      if kind = "pull" then
        (some st.nextId, none,
          ⟨setMap st.pulling key st.nextId, st.pushing, st.nextId + 1, st.closedSignals⟩)
      else if kind = "push" then
        (some st.nextId, none,
          ⟨st.pulling, setMap st.pushing key st.nextId, st.nextId + 1, st.closedSignals⟩)
      else (none, some "Unknown pool type", st)

/-- `poolRemove` (tags.go 487-505): close the signal and drop the entry of
the matching pool; a missing key is a no-op. -/
def poolRemove (st : PoolState) (kind key : String) : Option String × PoolState :=
  if kind = "pull" then
    match lookupMap st.pulling key with
    | some c => (none, ⟨eraseMap st.pulling key, st.pushing, st.nextId, c :: st.closedSignals⟩)
    | none => (none, st)
  else if kind = "push" then
    match lookupMap st.pushing key with
    | some c => (none, ⟨st.pulling, eraseMap st.pushing key, st.nextId, c :: st.closedSignals⟩)
    | none => (none, st)
  else (some "Unknown pool type", st)

/-- One coordinator call, for stating reachability. -/
inductive PoolOp where
  | add (kind key : String)
  | remove (kind key : String)

/-- State transition of one coordinator call. -/
def poolStep (st : PoolState) : PoolOp → PoolState
  | .add kind key => (poolAdd st kind key).2.2
  | .remove kind key => (poolRemove st kind key).2

/-- The pool state after a sequence of coordinator calls on a fresh store. -/
def poolRun (ops : List PoolOp) : PoolState := ops.foldl poolStep initPools

/-- No key is in both pools. -/
def poolsDisjoint (st : PoolState) : Prop :=
  ∀ k, ¬((lookupMap st.pulling k).isSome = true ∧ (lookupMap st.pushing k).isSome = true)

/-- Channel identities in the pools and the closed set were allocated earlier. -/
def poolWF (st : PoolState) : Prop :=
  (∀ p ∈ st.pulling, p.2 < st.nextId) ∧ (∀ p ∈ st.pushing, p.2 < st.nextId) ∧
    (∀ c ∈ st.closedSignals, c < st.nextId)

/-
Persistence (tags.go 94-104).  `save()` marshals the store and calls
`ioutil.WriteFile(store.path, jsonData, 0600)`, which opens the file with
O_TRUNC and writes the bytes in place.  The write method is modelled as a
description of the file-system access pattern together with the states a
concurrent reader of the path can observe while the write is in flight:
an in-place truncate-and-write exposes the truncated file and every
prefix of the new contents, while an atomic write-then-rename exposes
only the old and the new contents.
-/

/-- How a file is replaced, with its permission mode. -/
inductive WriteMethod where
  /-- Truncate in place and write sequentially (what `ioutil.WriteFile` does). -/
  | inPlaceTruncWrite (mode : Nat)
  /-- Write a temporary file and atomically rename it over the path. -/
  | writeThenRename (mode : Nat)
deriving DecidableEq

/-- `save()` (tags.go 94-104) writes in place via `ioutil.WriteFile` with mode 0600. -/
def saveWriteMethod : WriteMethod := .inPlaceTruncWrite 0o600

/-- All prefixes of a byte sequence, shortest first. -/
def prefixesOf (l : List Char) : List (List Char) :=
  (List.range (l.length + 1)).map (fun n => l.take n)

/-- File contents a concurrent reader can observe while old contents are
replaced by new ones under the given write method. -/
def observableContents (m : WriteMethod) (old new : List Char) : List (List Char) :=
  match m with
  | .inPlaceTruncWrite _ => old :: prefixesOf new
  | .writeThenRename _ => [old, new]

/-- The permission mode of a write method. -/
def writeMode : WriteMethod → Nat
  | .inPlaceTruncWrite mode => mode
  | .writeThenRename mode => mode

/-- Claim C1: with the binding (repo, tag) present and resolving to A, and the
image name resolving to B distinct from A, `Tag`/`SetLoad` without force
returns the Conflict error, writes nothing, and leaves the in-memory map (and
hence the binding, still A) unchanged. -/
theorem tag_conflict_requires_force (ctx : RegistryCtx)
    (lookupImage : String → Except String String) (repos : Repos)
    (repoName tag imageName : String) (keepUnqualified saveOk : Bool)
    (A B : String) (repo : Repository)
    (hlk : lookupImage imageName = .ok B)
    (htag : tag ≠ "")
    (hrv : validateRepoName repoName = .ok ())
    (htv : ValidateTagName tag = .ok ())
    (hrepo : lookupMap repos (normalizedRepoName ctx repoName keepUnqualified) = some repo)
    (hbind : lookupMap repo tag = some A)
    (_hAB : A ≠ B) :
    SetLoad ctx lookupImage repos repoName tag imageName false keepUnqualified saveOk =
      ⟨some (conflictTagMsg tag A), repos, none⟩ ∧
    lookupMap repos (normalizedRepoName ctx repoName keepUnqualified) = some repo ∧
    lookupMap repo tag = some A := by
  refine ⟨?_, hrepo, hbind⟩
  simp [SetLoad, setLoadCore, hlk, htag, hrv, htv, hrepo, hbind, runWithSave]

/-- Claim C1 witness. -/
theorem tag_conflict_requires_force_witness :
    (fun (_ : String) => (Except.ok "bbb" : Except String String)) "img" = .ok "bbb" ∧
    lookupMap [("v1", "aaa")] "v1" = some "aaa" ∧ "aaa" ≠ "bbb" ∧
    SetLoad (specCtx ["docker.io"]) (fun _ => .ok "bbb") [("r.io/foo", [("v1", "aaa")])]
        "r.io/foo" "v1" "img" false false true =
      ⟨some (conflictTagMsg "v1" "aaa"), [("r.io/foo", [("v1", "aaa")])], none⟩ :=
  ⟨rfl, by decide, by decide,
    (tag_conflict_requires_force (specCtx ["docker.io"]) (fun _ => .ok "bbb")
      [("r.io/foo", [("v1", "aaa")])] "r.io/foo" "v1" "img" false true "aaa" "bbb"
      [("v1", "aaa")] rfl (by decide) (by decide) (by decide) (by decide) (by decide)
      (by decide)).1⟩

/-- Claim C10: the Conflict of `SetLoad` fires even when the existing binding
already points at the very image being tagged -- re-tagging to the identical
image without force still fails and changes nothing. -/
theorem tag_conflict_same_image (ctx : RegistryCtx)
    (lookupImage : String → Except String String) (repos : Repos)
    (repoName tag imageName : String) (keepUnqualified saveOk : Bool)
    (A : String) (repo : Repository)
    (hlk : lookupImage imageName = .ok A)
    (htag : tag ≠ "")
    (hrv : validateRepoName repoName = .ok ())
    (htv : ValidateTagName tag = .ok ())
    (hrepo : lookupMap repos (normalizedRepoName ctx repoName keepUnqualified) = some repo)
    (hbind : lookupMap repo tag = some A) :
    SetLoad ctx lookupImage repos repoName tag imageName false keepUnqualified saveOk =
      ⟨some (conflictTagMsg tag A), repos, none⟩ := by
  simp [SetLoad, setLoadCore, hlk, htag, hrv, htv, hrepo, hbind, runWithSave]

/-- Claim C10 witness. -/
theorem tag_conflict_same_image_witness :
    (fun (_ : String) => (Except.ok "aaa" : Except String String)) "img" = .ok "aaa" ∧
    lookupMap [("v1", "aaa")] "v1" = some "aaa" ∧
    SetLoad (specCtx ["docker.io"]) (fun _ => .ok "aaa") [("r.io/foo", [("v1", "aaa")])]
        "r.io/foo" "v1" "img" false false true =
      ⟨some (conflictTagMsg "v1" "aaa"), [("r.io/foo", [("v1", "aaa")])], none⟩ :=
  ⟨rfl, by decide,
    tag_conflict_same_image (specCtx ["docker.io"]) (fun _ => .ok "aaa")
      [("r.io/foo", [("v1", "aaa")])] "r.io/foo" "v1" "img" false true "aaa"
      [("v1", "aaa")] rfl (by decide) (by decide) (by decide) (by decide) (by decide)⟩

/-- Claim C2: a digest binding resolving to A is a hard Conflict for any
attempt to rebind it to a different B (`SetDigest` has no force option at
all), leaving the state unchanged; rebinding to the same ID A succeeds. -/
theorem setDigest_conflict_and_idempotent (ctx : RegistryCtx) (repos : Repos)
    (repoName dgst : String) (keepUnqualified : Bool)
    (A : String) (repoRefs : Repository)
    (hrv : validateRepoName repoName = .ok ())
    (hdg : validateDigest dgst = .ok ())
    (hrepo : lookupMap repos (normalizedRepoName ctx repoName keepUnqualified) = some repoRefs)
    (hbind : lookupMap repoRefs dgst = some A) :
    (∀ (lookupImage : String → Except String String) (imageName B : String) (saveOk : Bool),
      lookupImage imageName = .ok B → A ≠ B →
      SetDigest ctx lookupImage repos repoName dgst imageName keepUnqualified saveOk =
        ⟨some (conflictDigestMsg dgst A), repos, none⟩) ∧
    (∀ (lookupImage : String → Except String String) (imageName : String),
      lookupImage imageName = .ok A →
      SetDigest ctx lookupImage repos repoName dgst imageName keepUnqualified true =
        ⟨none,
         setMap repos (normalizedRepoName ctx repoName keepUnqualified) (setMap repoRefs dgst A),
         some (.complete (setMap repos (normalizedRepoName ctx repoName keepUnqualified)
           (setMap repoRefs dgst A)))⟩ ∧
      lookupMap (setMap repoRefs dgst A) dgst = some A) := by
  constructor
  · intro lookupImage imageName B saveOk hlk hAB
    simp [SetDigest, setDigestCore, hlk, hrv, hdg, hrepo, hbind, hAB, runWithSave]
  · intro lookupImage imageName hlk
    refine ⟨?_, lookup_setMap_self _ _ _⟩
    simp [SetDigest, setDigestCore, hlk, hrv, hdg, hrepo, hbind, runWithSave]

/-- Claim C2 witness. -/
theorem setDigest_conflict_and_idempotent_witness :
    lookupMap [("sha256:aa", "aaa")] "sha256:aa" = some "aaa" ∧ "aaa" ≠ "bbb" ∧
    SetDigest (specCtx ["docker.io"]) (fun _ => .ok "bbb") [("r.io/foo", [("sha256:aa", "aaa")])]
        "r.io/foo" "sha256:aa" "img" false true =
      ⟨some (conflictDigestMsg "sha256:aa" "aaa"), [("r.io/foo", [("sha256:aa", "aaa")])], none⟩ ∧
    SetDigest (specCtx ["docker.io"]) (fun _ => .ok "aaa") [("r.io/foo", [("sha256:aa", "aaa")])]
        "r.io/foo" "sha256:aa" "img" false true =
      ⟨none, [("r.io/foo", [("sha256:aa", "aaa")])],
        some (.complete [("r.io/foo", [("sha256:aa", "aaa")])])⟩ :=
  ⟨by decide, by decide,
    (setDigest_conflict_and_idempotent (specCtx ["docker.io"])
      [("r.io/foo", [("sha256:aa", "aaa")])] "r.io/foo" "sha256:aa" false "aaa"
      [("sha256:aa", "aaa")] (by decide) (by decide) (by decide) (by decide)).1
      (fun _ => .ok "bbb") "img" "bbb" true rfl (by decide),
    ((setDigest_conflict_and_idempotent (specCtx ["docker.io"])
      [("r.io/foo", [("sha256:aa", "aaa")])] "r.io/foo" "sha256:aa" false "aaa"
      [("sha256:aa", "aaa")] (by decide) (by decide) (by decide) (by decide)).2
      (fun _ => .ok "aaa") "img" rfl).1⟩

/-- Claim C5 counterexample: a `Tag` whose save fails returns an error but the
in-memory map is NOT left equal to the reloaded-at-start state (here the empty
map): the mutation survives in memory because the source mutates before saving. -/
theorem failed_save_leaves_memory_mutated :
    SetLoad (specCtx ["docker.io"]) (fun _ => .ok "id1") [] "r.io/foo" "v1" "img"
        false false false =
      ⟨some persistErrMsg, [("r.io/foo", [("v1", "id1")])], some .failed⟩ ∧
    ([("r.io/foo", [("v1", "id1")])] : Repos) ≠ [] :=
  ⟨by decide, by decide⟩

/-- Claim C5 amended: when persisting fails, each mutating operation
(`SetLoad`, `SetDigest`, `Delete`) returns an error, but the in-memory map is
not rolled back: whenever the mutation had succeeded before the save, the
mutated map is what remains in memory (the source mutates before calling
`save()`), and the failed in-place write leaves the file in an unspecified,
possibly torn state (`DiskOutcome.failed` -- no complete new snapshot and no
guarantee that the old one survives). -/
theorem failed_save_memory_keeps_mutation (ctx : RegistryCtx)
    (lookupImage : String → Except String String) (repos : Repos)
    (repoName tag dgst imageName ref : String) (force keepUnqualified : Bool) :
    ((SetLoad ctx lookupImage repos repoName tag imageName force keepUnqualified false).err.isSome
        = true ∧
     (∀ r, setLoadCore ctx lookupImage repos repoName tag imageName force keepUnqualified
        = .ok r →
      (SetLoad ctx lookupImage repos repoName tag imageName force keepUnqualified false).mem
          = r ∧
      (SetLoad ctx lookupImage repos repoName tag imageName force keepUnqualified false).disk
          = some .failed)) ∧
    ((SetDigest ctx lookupImage repos repoName dgst imageName keepUnqualified false).err.isSome
        = true ∧
     (∀ r, setDigestCore ctx lookupImage repos repoName dgst imageName keepUnqualified
        = .ok r →
      (SetDigest ctx lookupImage repos repoName dgst imageName keepUnqualified false).mem
          = r ∧
      (SetDigest ctx lookupImage repos repoName dgst imageName keepUnqualified false).disk
          = some .failed)) ∧
    ((Delete ctx repos repoName ref false).2.err.isSome = true ∧
     (∀ r, deleteCore ctx repos repoName ref = .ok r →
      (Delete ctx repos repoName ref false).2.mem = r ∧
      (Delete ctx repos repoName ref false).2.disk = some .failed)) := by
  refine ⟨⟨?_, ?_⟩, ⟨?_, ?_⟩, ⟨?_, ?_⟩⟩ <;>
    first
    | (cases h : setLoadCore ctx lookupImage repos repoName tag imageName force keepUnqualified <;>
        simp [SetLoad, runWithSave, h])
    | (cases h : setDigestCore ctx lookupImage repos repoName dgst imageName keepUnqualified <;>
        simp [SetDigest, runWithSave, h])
    | (cases h : deleteCore ctx repos repoName ref <;> simp [Delete, runWithSave, h])

/-- Claim C5 witness. -/
theorem failed_save_memory_keeps_mutation_witness :
    setLoadCore (specCtx ["docker.io"]) (fun _ => .ok "id1") [] "r.io/foo" "v1" "img" false false
      = .ok [("r.io/foo", [("v1", "id1")])] ∧
    (SetLoad (specCtx ["docker.io"]) (fun _ => .ok "id1") [] "r.io/foo" "v1" "img" false false
        false).mem = [("r.io/foo", [("v1", "id1")])] ∧
    (SetLoad (specCtx ["docker.io"]) (fun _ => .ok "id1") [] "r.io/foo" "v1" "img" false false
        false).disk = some .failed ∧
    (SetLoad (specCtx ["docker.io"]) (fun _ => .ok "id1") [] "r.io/foo" "v1" "img" false false
        false).err.isSome = true :=
  ⟨by decide,
    ((failed_save_memory_keeps_mutation (specCtx ["docker.io"]) (fun _ => .ok "id1") []
      "r.io/foo" "v1" "d" "img" "r" false false).1.2 [("r.io/foo", [("v1", "id1")])]
      (by decide)).1,
    ((failed_save_memory_keeps_mutation (specCtx ["docker.io"]) (fun _ => .ok "id1") []
      "r.io/foo" "v1" "d" "img" "r" false false).1.2 [("r.io/foo", [("v1", "id1")])]
      (by decide)).2,
    (failed_save_memory_keeps_mutation (specCtx ["docker.io"]) (fun _ => .ok "id1") []
      "r.io/foo" "v1" "d" "img" "r" false false).1.1⟩

/-
Helper lemmas about reloading and candidate heads, shared by the theorems
for the read operations and the candidate enumeration.
-/

theorem lookup_foldl_setMap_of_not_mem {α : Type} (l : List (String × α))
    (m : List (String × α)) (k : String) (h : k ∉ l.map Prod.fst) :
    lookupMap (l.foldl (fun acc p => setMap acc p.1 p.2) m) k = lookupMap m k := by
  induction l generalizing m with
  | nil => rfl
  | cons p rest ih =>
    simp only [List.map_cons, List.mem_cons, not_or] at h
    rw [List.foldl_cons, ih _ h.2]
    exact lookup_setMap_ne _ _ _ _ h.1

theorem lookup_reload_of_disk (mem disk : Repos) (k : String) (R : Repository)
    (hnd : nodupKeys disk) (h : lookupMap disk k = some R) :
    lookupMap (reloadRepos mem disk) k = some R := by
  induction disk generalizing mem with
  | nil => simp [lookupMap] at h
  | cons p rest ih =>
    show lookupMap (List.foldl _ (setMap mem p.1 p.2) rest) k = some R
    by_cases hk : p.1 = k
    · subst hk
      have hR : p.2 = R := by simpa [lookupMap] using h
      have hnotin : p.1 ∉ rest.map Prod.fst := by
        simpa [nodupKeys] using (List.nodup_cons.mp hnd).1
      rw [lookup_foldl_setMap_of_not_mem _ _ _ hnotin, lookup_setMap_self, hR]
    · have h' : lookupMap rest k = some R := by simpa [lookupMap, hk] using h
      exact ih (setMap mem p.1 p.2) (List.nodup_cons.mp hnd).2 h'

theorem getRepositoryList_head_exact (ctx : RegistryCtx) (repos : Repos) (repoName : String)
    (r : Repository) (h : lookupMap repos repoName = some r) :
    (getRepositoryList ctx repos repoName).head? = some (repoName, r) := by
  cases h2 : lookupMap repos (ctx.normalizeLocalName repoName) <;>
    by_cases hidx : ctx.repositoryNameHasIndex repoName <;>
      simp [getRepositoryList, h, h2, hidx]

theorem getRepositoryList_head_normalized (ctx : RegistryCtx) (repos : Repos) (repoName : String)
    (r : Repository) (h1 : lookupMap repos repoName = none)
    (h2 : lookupMap repos (ctx.normalizeLocalName repoName) = some r) :
    (getRepositoryList ctx repos repoName).head? = some (ctx.normalizeLocalName repoName, r) := by
  by_cases hidx : ctx.repositoryNameHasIndex repoName <;>
    simp [getRepositoryList, h1, h2, hidx]

/-- Claim C6 counterexample: with an empty in-memory map and a binding only in
the persisted file, `Get` answers from the file (it reloads) but `GetImage`
and `ByID` do not see it -- after an explicit reload they would -- so not
every read operation reloads before answering. -/
theorem reads_do_not_all_reload_counterexample :
    (Get (specCtx ["docker.io"]) ⟨[], [("r.io/x", [("t", "abc")])]⟩ "r.io/x").1
      = some [("t", "abc")] ∧
    GetImage (specCtx ["docker.io"]) ⟨[], [("r.io/x", [("t", "abc")])]⟩ "r.io/x" "t" = none ∧
    GetImage (specCtx ["docker.io"])
        ⟨reloadRepos [] [("r.io/x", [("t", "abc")])], [("r.io/x", [("t", "abc")])]⟩ "r.io/x" "t"
      = some "abc" ∧
    ByID ⟨[], [("r.io/x", [("t", "abc")])]⟩ "abc" = [] ∧
    ByID ⟨reloadRepos [] [("r.io/x", [("t", "abc")])], [("r.io/x", [("t", "abc")])]⟩ "abc"
      = ["r.io/x:t"] :=
  ⟨by decide, by decide, by decide, by decide, by decide⟩

/-- Claim C6 amended: `Get` reloads before answering, so it reflects every
binding present in the on-disk state; `GetImage` and `ByID` do not reload --
they answer from the in-memory map alone and their results are unaffected by
the on-disk state. -/
theorem reads_reload_semantics :
    (∀ (ctx : RegistryCtx) (mem disk : Repos) (repoName : String) (R : Repository),
      nodupKeys disk → lookupMap disk repoName = some R →
      (Get ctx ⟨mem, disk⟩ repoName).1 = some R) ∧
    (∀ (ctx : RegistryCtx) (mem d1 d2 : Repos) (repoName refOrID : String),
      GetImage ctx ⟨mem, d1⟩ repoName refOrID = GetImage ctx ⟨mem, d2⟩ repoName refOrID) ∧
    (∀ (mem d1 d2 : Repos) (id : String), ByID ⟨mem, d1⟩ id = ByID ⟨mem, d2⟩ id) := by
  refine ⟨?_, fun _ _ _ _ _ _ => rfl, fun _ _ _ _ => rfl⟩
  intro ctx mem disk repoName R hnd h
  have hl := lookup_reload_of_disk mem disk repoName R hnd h
  simp [Get, getCore, getRepositoryList_head_exact ctx (reloadRepos mem disk) repoName R hl]

/-- Claim C6 witness. -/
theorem reads_reload_semantics_witness :
    nodupKeys ([("r.io/x", [("t", "abc")])] : Repos) ∧
    lookupMap ([("r.io/x", [("t", "abc")])] : Repos) "r.io/x" = some [("t", "abc")] ∧
    (Get (specCtx ["docker.io"]) ⟨[], [("r.io/x", [("t", "abc")])]⟩ "r.io/x").1
      = some [("t", "abc")] :=
  ⟨by decide, by decide,
    reads_reload_semantics.1 (specCtx ["docker.io"]) [] [("r.io/x", [("t", "abc")])] "r.io/x"
      [("t", "abc")] (by decide) (by decide)⟩

/-- Claim C3 counterexample: the candidate list is not duplicate-free (a
repository whose name equals its own normalization is listed twice), and two
stores that are equal as maps (same key-value multiset) but differ in
iteration order give different candidate lists, so the result does depend on
hash-map iteration order. -/
theorem candidate_list_counterexample :
    ¬ (getRepositoryList (specCtx ["docker.io"]) [("myreg.io/foo", [("t", "i")])]
        "myreg.io/foo").Nodup ∧
    (([("a.com/foo", [("t", "x")]), ("b.com/foo", [("t", "y")])] : Repos) :
        Multiset (String × Repository)) =
      (([("b.com/foo", [("t", "y")]), ("a.com/foo", [("t", "x")])] : Repos) :
        Multiset (String × Repository)) ∧
    getRepositoryList (specCtx ["docker.io"])
        [("a.com/foo", [("t", "x")]), ("b.com/foo", [("t", "y")])] "foo" ≠
      getRepositoryList (specCtx ["docker.io"])
        [("b.com/foo", [("t", "y")]), ("a.com/foo", [("t", "x")])] "foo" :=
  ⟨by decide, by decide, by decide⟩

/-- Claim C3 amended: the head of the candidate list still follows the
priority order -- the exact match comes first when present, otherwise the
match after normalization -- but the list may contain duplicate entries (when
the exact name coincides with its normalization) and the tail of the list
follows the store's iteration order rather than being canonical. -/
theorem candidate_list_head_priority :
    (∀ (ctx : RegistryCtx) (repos : Repos) (repoName : String) (r : Repository),
      lookupMap repos repoName = some r →
      (getRepositoryList ctx repos repoName).head? = some (repoName, r)) ∧
    (∀ (ctx : RegistryCtx) (repos : Repos) (repoName : String) (r : Repository),
      lookupMap repos repoName = none →
      lookupMap repos (ctx.normalizeLocalName repoName) = some r →
      (getRepositoryList ctx repos repoName).head? =
        some (ctx.normalizeLocalName repoName, r)) :=
  ⟨getRepositoryList_head_exact, getRepositoryList_head_normalized⟩

/-- Claim C3 witness. -/
theorem candidate_list_head_priority_witness :
    lookupMap ([("busybox", [("latest", "i1")]), ("docker.io/busybox", [("latest", "i2")])] : Repos)
        "busybox" = some [("latest", "i1")] ∧
    (getRepositoryList (specCtx ["docker.io"])
        [("busybox", [("latest", "i1")]), ("docker.io/busybox", [("latest", "i2")])]
        "busybox").head? = some ("busybox", [("latest", "i1")]) :=
  ⟨by decide,
    candidate_list_head_priority.1 (specCtx ["docker.io"])
      [("busybox", [("latest", "i1")]), ("docker.io/busybox", [("latest", "i2")])]
      "busybox" [("latest", "i1")] (by decide)⟩

/-- Claim C4: evaluating `DeleteAll` at the failing input.  The store binds
image idA only under the repository "myhost:5000/foo" (a registry host with a
port) at tag v1; `DeleteAll` splits the reference "myhost:5000/foo:v1" on ":"
and passes only the first two pieces to `Delete`, deleting the unrelated
binding of repository "myhost" instead, and returns without error while the
reference to idA survives. -/
theorem deleteAll_colon_repo_name_bug :
    DeleteAll (specCtx ["docker.io"])
        [("myhost", [("5000/foo", "idB")]), ("myhost:5000/foo", [("v1", "idA")])] "idA" =
      .ok [("myhost:5000/foo", [("v1", "idA")])] ∧
    byID [("myhost:5000/foo", [("v1", "idA")])] "idA" = ["myhost:5000/foo:v1"] :=
  ⟨by decide, by decide⟩

theorem mem_of_lookup_some {α : Type} (m : List (String × α)) (k : String) (v : α)
    (h : lookupMap m k = some v) : (k, v) ∈ m := by
  induction m with
  | nil => simp [lookupMap] at h
  | cons p rest ih =>
    rcases p with ⟨pk, pv⟩
    by_cases hp : pk = k
    · subst hp
      have hv : pv = v := by simpa [lookupMap] using h
      subst hv
      exact List.mem_cons_self _ _
    · exact List.mem_cons_of_mem _ (ih (by simpa [lookupMap, hp] using h))

theorem poolAdd_state_same_pull (st : PoolState) (kind key : String) (c : Nat)
    (h1 : lookupMap st.pulling key = some c) : (poolAdd st kind key).2.2 = st := by
  simp [poolAdd, h1]

theorem poolAdd_state_same_push (st : PoolState) (kind key : String) (c : Nat)
    (h1 : lookupMap st.pulling key = none) (h2 : lookupMap st.pushing key = some c) :
    (poolAdd st kind key).2.2 = st := by
  simp [poolAdd, h1, h2]

theorem poolAdd_state_fresh (st : PoolState) (kind key : String)
    (h1 : lookupMap st.pulling key = none) (h2 : lookupMap st.pushing key = none) :
    (poolAdd st kind key).2.2 =
      if kind = "pull" then
        ⟨setMap st.pulling key st.nextId, st.pushing, st.nextId + 1, st.closedSignals⟩
      else if kind = "push" then
        ⟨st.pulling, setMap st.pushing key st.nextId, st.nextId + 1, st.closedSignals⟩
      else st := by
  by_cases hpull : kind = "pull"
  · simp [poolAdd, h1, h2, hpull]
  · by_cases hpush : kind = "push"
    · simp [poolAdd, h1, h2, hpull, hpush]
    · simp [poolAdd, h1, h2, hpull, hpush]

theorem poolRemove_state (st : PoolState) (kind key : String) :
    (poolRemove st kind key).2 =
      if kind = "pull" then
        match lookupMap st.pulling key with
        | some c => ⟨eraseMap st.pulling key, st.pushing, st.nextId, c :: st.closedSignals⟩
        | none => st
      else if kind = "push" then
        match lookupMap st.pushing key with
        | some c => ⟨st.pulling, eraseMap st.pushing key, st.nextId, c :: st.closedSignals⟩
        | none => st
      else st := by
  by_cases hpull : kind = "pull"
  · cases h1 : lookupMap st.pulling key <;> simp [poolRemove, hpull, h1]
  · by_cases hpush : kind = "push"
    · cases h1 : lookupMap st.pushing key <;> simp [poolRemove, hpull, hpush, h1]
    · simp [poolRemove, hpull, hpush]

theorem poolAdd_preserves_disjoint (st : PoolState) (kind key : String)
    (h : poolsDisjoint st) : poolsDisjoint (poolAdd st kind key).2.2 := by
  cases h1 : lookupMap st.pulling key with
  | some c => rw [poolAdd_state_same_pull st kind key c h1]; exact h
  | none =>
    cases h2 : lookupMap st.pushing key with
    | some c => rw [poolAdd_state_same_push st kind key c h1 h2]; exact h
    | none =>
      rw [poolAdd_state_fresh st kind key h1 h2]
      by_cases hpull : kind = "pull"
      · rw [if_pos hpull]
        intro k hk
        by_cases hkey : k = key
        · rw [hkey] at hk
          rw [h2] at hk
          simp at hk
        · rw [show (⟨setMap st.pulling key st.nextId, st.pushing, st.nextId + 1,
              st.closedSignals⟩ : PoolState).pulling = setMap st.pulling key st.nextId from rfl,
            lookup_setMap_ne st.pulling key k st.nextId hkey] at hk
          exact h k hk
      · by_cases hpush : kind = "push"
        · rw [if_neg hpull, if_pos hpush]
          intro k hk
          by_cases hkey : k = key
          · rw [hkey] at hk
            rw [show (⟨st.pulling, setMap st.pushing key st.nextId, st.nextId + 1,
              st.closedSignals⟩ : PoolState).pulling = st.pulling from rfl, h1] at hk
            simp at hk
          · rw [show (⟨st.pulling, setMap st.pushing key st.nextId, st.nextId + 1,
                st.closedSignals⟩ : PoolState).pushing = setMap st.pushing key st.nextId from rfl,
              lookup_setMap_ne st.pushing key k st.nextId hkey] at hk
            exact h k hk
        · rw [if_neg hpull, if_neg hpush]; exact h

theorem poolRemove_preserves_disjoint (st : PoolState) (kind key : String)
    (h : poolsDisjoint st) : poolsDisjoint (poolRemove st kind key).2 := by
  rw [poolRemove_state st kind key]
  by_cases hpull : kind = "pull"
  · rw [if_pos hpull]
    cases h1 : lookupMap st.pulling key with
    | none => exact h
    | some c =>
      intro k hk
      by_cases hkey : k = key
      · rw [hkey] at hk
        rw [show (⟨eraseMap st.pulling key, st.pushing, st.nextId,
            c :: st.closedSignals⟩ : PoolState).pulling = eraseMap st.pulling key from rfl,
          lookup_eraseMap_self] at hk
        simp at hk
      · rw [show (⟨eraseMap st.pulling key, st.pushing, st.nextId,
            c :: st.closedSignals⟩ : PoolState).pulling = eraseMap st.pulling key from rfl,
          lookup_eraseMap_ne st.pulling key k hkey] at hk
        exact h k hk
  · by_cases hpush : kind = "push"
    · rw [if_neg hpull, if_pos hpush]
      cases h1 : lookupMap st.pushing key with
      | none => exact h
      | some c =>
        intro k hk
        by_cases hkey : k = key
        · rw [hkey] at hk
          rw [show (⟨st.pulling, eraseMap st.pushing key, st.nextId,
              c :: st.closedSignals⟩ : PoolState).pushing = eraseMap st.pushing key from rfl,
            lookup_eraseMap_self] at hk
          simp at hk
        · rw [show (⟨st.pulling, eraseMap st.pushing key, st.nextId,
              c :: st.closedSignals⟩ : PoolState).pushing = eraseMap st.pushing key from rfl,
            lookup_eraseMap_ne st.pushing key k hkey] at hk
          exact h k hk
    · rw [if_neg hpull, if_neg hpush]; exact h

theorem poolAdd_preserves_WF (st : PoolState) (kind key : String)
    (h : poolWF st) : poolWF (poolAdd st kind key).2.2 := by
  obtain ⟨hpl, hps, hcl⟩ := h
  cases h1 : lookupMap st.pulling key with
  | some c => rw [poolAdd_state_same_pull st kind key c h1]; exact ⟨hpl, hps, hcl⟩
  | none =>
    cases h2 : lookupMap st.pushing key with
    | some c => rw [poolAdd_state_same_push st kind key c h1 h2]; exact ⟨hpl, hps, hcl⟩
    | none =>
      rw [poolAdd_state_fresh st kind key h1 h2]
      by_cases hpull : kind = "pull"
      · rw [if_pos hpull]
        refine ⟨?_, ?_, ?_⟩
        · intro p hp
          rcases mem_setMap _ _ _ _ hp with hp2 | hp2
          · simp [hp2]
          · exact Nat.lt_succ_of_lt (hpl p hp2)
        · exact fun p hp => Nat.lt_succ_of_lt (hps p hp)
        · exact fun c hc => Nat.lt_succ_of_lt (hcl c hc)
      · by_cases hpush : kind = "push"
        · rw [if_neg hpull, if_pos hpush]
          refine ⟨?_, ?_, ?_⟩
          · exact fun p hp => Nat.lt_succ_of_lt (hpl p hp)
          · intro p hp
            rcases mem_setMap _ _ _ _ hp with hp2 | hp2
            · simp [hp2]
            · exact Nat.lt_succ_of_lt (hps p hp2)
          · exact fun c hc => Nat.lt_succ_of_lt (hcl c hc)
        · rw [if_neg hpull, if_neg hpush]; exact ⟨hpl, hps, hcl⟩

theorem poolRemove_preserves_WF (st : PoolState) (kind key : String)
    (h : poolWF st) : poolWF (poolRemove st kind key).2 := by
  obtain ⟨hpl, hps, hcl⟩ := h
  rw [poolRemove_state st kind key]
  by_cases hpull : kind = "pull"
  · rw [if_pos hpull]
    cases h1 : lookupMap st.pulling key with
    | none => exact ⟨hpl, hps, hcl⟩
    | some c =>
      refine ⟨?_, hps, ?_⟩
      · exact fun p hp => hpl p (mem_eraseMap _ _ _ hp)
      · intro x hx
        rcases List.mem_cons.mp hx with hx2 | hx2
        · exact hx2 ▸ hpl _ (mem_of_lookup_some _ _ _ h1)
        · exact hcl x hx2
  · by_cases hpush : kind = "push"
    · rw [if_neg hpull, if_pos hpush]
      cases h1 : lookupMap st.pushing key with
      | none => exact ⟨hpl, hps, hcl⟩
      | some c =>
        refine ⟨hpl, ?_, ?_⟩
        · exact fun p hp => hps p (mem_eraseMap _ _ _ hp)
        · intro x hx
          rcases List.mem_cons.mp hx with hx2 | hx2
          · exact hx2 ▸ hps _ (mem_of_lookup_some _ _ _ h1)
          · exact hcl x hx2
    · rw [if_neg hpull, if_neg hpush]; exact ⟨hpl, hps, hcl⟩

theorem poolRun_invariant (ops : List PoolOp) :
    poolsDisjoint (poolRun ops) ∧ poolWF (poolRun ops) := by
  suffices h : ∀ st, poolsDisjoint st ∧ poolWF st →
      poolsDisjoint (ops.foldl poolStep st) ∧ poolWF (ops.foldl poolStep st) by
    refine h initPools ⟨?_, ?_, ?_, ?_⟩
    · intro k hk
      simp [initPools, lookupMap] at hk
    · intro p hp
      simp [initPools] at hp
    · intro p hp
      simp [initPools] at hp
    · intro c hc
      simp [initPools] at hc
  induction ops with
  | nil => exact fun st h => h
  | cons op rest ih =>
    intro st h
    rw [List.foldl_cons]
    refine ih _ ?_
    cases op with
    | add kind key =>
      exact ⟨poolAdd_preserves_disjoint st kind key h.1, poolAdd_preserves_WF st kind key h.2⟩
    | remove kind key =>
      exact ⟨poolRemove_preserves_disjoint st kind key h.1,
        poolRemove_preserves_WF st kind key h.2⟩

/-- Claim C7: `poolAdd` returns the existing signal with an
already-in-progress error when the key is in the same-kind pool (state
unchanged), a hard conflict error when the key is in the other-kind pool
(state unchanged), and otherwise installs a fresh signal -- unset, since its
identity was never closed -- and reports it acquired; consequently no key is
ever in both pools on any reachable state, and `poolRemove` closes the signal
and removes the entry. -/
theorem pool_coordination :
    (∀ (st : PoolState) (kind key : String) (c : Nat), lookupMap st.pulling key = some c →
      poolAdd st kind key = (some c, some (pullInProgressMsg key), st)) ∧
    (∀ (st : PoolState) (kind key : String) (c : Nat),
      lookupMap st.pulling key = none → lookupMap st.pushing key = some c →
      poolAdd st kind key = (some c, some (pushInProgressMsg key), st)) ∧
    (∀ (st : PoolState) (key : String),
      lookupMap st.pulling key = none → lookupMap st.pushing key = none →
      poolAdd st "pull" key = (some st.nextId, none,
        ⟨setMap st.pulling key st.nextId, st.pushing, st.nextId + 1, st.closedSignals⟩) ∧
      poolAdd st "push" key = (some st.nextId, none,
        ⟨st.pulling, setMap st.pushing key st.nextId, st.nextId + 1, st.closedSignals⟩) ∧
      (poolWF st → st.nextId ∉ st.closedSignals)) ∧
    (∀ (st : PoolState) (key : String) (c : Nat), lookupMap st.pulling key = some c →
      poolRemove st "pull" key = (none,
        ⟨eraseMap st.pulling key, st.pushing, st.nextId, c :: st.closedSignals⟩) ∧
      lookupMap (eraseMap st.pulling key) key = none) ∧
    (∀ (st : PoolState) (key : String) (c : Nat), lookupMap st.pushing key = some c →
      poolRemove st "push" key = (none,
        ⟨st.pulling, eraseMap st.pushing key, st.nextId, c :: st.closedSignals⟩) ∧
      lookupMap (eraseMap st.pushing key) key = none) ∧
    (∀ ops : List PoolOp, poolsDisjoint (poolRun ops)) := by
  refine ⟨?_, ?_, ?_, ?_, ?_, fun ops => (poolRun_invariant ops).1⟩
  · intro st kind key c h1
    simp [poolAdd, h1]
  · intro st kind key c h1 h2
    simp [poolAdd, h1, h2]
  · intro st key h1 h2
    refine ⟨by simp [poolAdd, h1, h2], by simp [poolAdd, h1, h2], ?_⟩
    intro hwf hmem
    exact absurd (hwf.2.2 st.nextId hmem) (Nat.lt_irrefl st.nextId)
  · intro st key c h1
    exact ⟨by simp [poolRemove, h1], lookup_eraseMap_self _ _⟩
  · intro st key c h1
    exact ⟨by simp [poolRemove, h1], lookup_eraseMap_self _ _⟩

/-- Claim C7 witness. -/
theorem pool_coordination_witness :
    lookupMap (⟨[("k", 0)], [], 1, []⟩ : PoolState).pulling "k" = some 0 ∧
    poolAdd ⟨[("k", 0)], [], 1, []⟩ "push" "k" =
      (some 0, some (pullInProgressMsg "k"), ⟨[("k", 0)], [], 1, []⟩) ∧
    poolAdd initPools "pull" "k" = (some 0, none, ⟨[("k", 0)], [], 1, []⟩) ∧
    poolRemove ⟨[("k", 0)], [], 1, []⟩ "pull" "k" = (none, ⟨[], [], 1, [0]⟩) :=
  ⟨by decide,
    pool_coordination.1 ⟨[("k", 0)], [], 1, []⟩ "push" "k" 0 (by decide),
    (pool_coordination.2.2.1 initPools "k" (by decide) (by decide)).1,
    (pool_coordination.2.2.2.1 ⟨[("k", 0)], [], 1, []⟩ "k" 0 (by decide)).1⟩

/-- Claim C8 counterexample: `save()` writes in place (no rename), so while
"xy" is being replaced by "ab" a concurrent reader can observe the truncated
(empty) file -- a state that is neither the old nor the new contents, refuting
"readers never observe a partially written state". -/
theorem save_torn_state_counterexample :
    saveWriteMethod = .inPlaceTruncWrite 0o600 ∧
    ([] : List Char) ∈ observableContents saveWriteMethod "xy".data "ab".data ∧
    ([] : List Char) ≠ "xy".data ∧ ([] : List Char) ≠ "ab".data :=
  ⟨rfl, by decide, by decide, by decide⟩

/-- Claim C8 amended: `save()` does write the persistence file with mode 0600,
but via an in-place truncate-and-write (`ioutil.WriteFile`), not
write-then-rename; consequently whenever old and new contents are nonempty a
concurrent reader can observe a state differing from both. -/
theorem save_mode_and_torn_states :
    writeMode saveWriteMethod = 0o600 ∧
    saveWriteMethod = .inPlaceTruncWrite 0o600 ∧
    (∀ old new : List Char, old ≠ [] → new ≠ [] →
      ∃ s ∈ observableContents saveWriteMethod old new, s ≠ old ∧ s ≠ new) := by
  refine ⟨rfl, rfl, ?_⟩
  intro old new hold hnew
  refine ⟨[], ?_, fun hh => hold hh.symm, fun hh => hnew hh.symm⟩
  show [] ∈ old :: prefixesOf new
  refine List.mem_cons_of_mem _ ?_
  simp only [prefixesOf, List.mem_map, List.mem_range]
  exact ⟨0, Nat.succ_pos _, by simp⟩

/-- Claim C8 witness. -/
theorem save_mode_and_torn_states_witness :
    ("xy".data ≠ []) ∧ ("ab".data ≠ []) ∧
    ∃ s ∈ observableContents saveWriteMethod "xy".data "ab".data,
      s ≠ "xy".data ∧ s ≠ "ab".data :=
  ⟨by decide, by decide,
    save_mode_and_torn_states.2.2 "xy".data "ab".data (by decide) (by decide)⟩

/-
Regex semantics lemmas: the scanning booleans agree with the declarative
readings of the two patterns.
-/

theorem colon_not_digest_name : isDigestNameChar ':' = false := by decide

theorem takeWhile_append_of_all {p : Char → Bool} (l1 l2 : List Char)
    (h : ∀ x ∈ l1, p x = true) : (l1 ++ l2).takeWhile p = l1 ++ l2.takeWhile p := by
  induction l1 with
  | nil => simp
  | cons a t ih =>
    rw [List.cons_append, List.takeWhile_cons_of_pos (h a (by simp)),
      ih (fun x hx => h x (by simp [hx])), List.cons_append]

theorem dropWhile_append_of_all {p : Char → Bool} (l1 l2 : List Char)
    (h : ∀ x ∈ l1, p x = true) : (l1 ++ l2).dropWhile p = l2.dropWhile p := by
  induction l1 with
  | nil => simp
  | cons a t ih =>
    rw [List.cons_append, List.dropWhile_cons_of_pos (h a (by simp)),
      ih (fun x hx => h x (by simp [hx]))]

theorem fullDigestProp_iff_bool (s : String) :
    FullDigestProp s ↔ fullDigestBool s.data = true := by
  constructor
  · rintro ⟨as, hs, heq, hane, haA, hhne, hhH⟩
    have hd : s.data.dropWhile isDigestNameChar = ':' :: hs := by
      rw [heq, dropWhile_append_of_all as (':' :: hs) haA,
        List.dropWhile_cons_of_neg (by simp [colon_not_digest_name])]
    have ht : s.data.takeWhile isDigestNameChar = as := by
      rw [heq, takeWhile_append_of_all as (':' :: hs) haA,
        List.takeWhile_cons_of_neg (by simp [colon_not_digest_name]), List.append_nil]
    unfold fullDigestBool
    rw [hd, ht]
    simp [hane, hhne, List.all_eq_true.mpr hhH]
  · intro h
    cases hd : s.data.dropWhile isDigestNameChar with
    | nil => rw [fullDigestBool, hd] at h; simp at h
    | cons c hs =>
      rw [fullDigestBool, hd] at h
      simp only [Bool.and_eq_true, beq_iff_eq, Bool.not_eq_true', List.isEmpty_eq_false] at h
      obtain ⟨⟨⟨hc, hane⟩, hhne⟩, hall⟩ := h
      refine ⟨s.data.takeWhile isDigestNameChar, hs, ?_, hane, ?_, hhne, ?_⟩
      · have hsplit := List.takeWhile_append_dropWhile (p := isDigestNameChar) (l := s.data)
        rw [hd, hc] at hsplit
        exact hsplit.symm
      · exact fun x hx => List.mem_takeWhile_imp hx
      · exact List.all_eq_true.mp hall

/-- The triple form of a substring match of the digest pattern: some
name-char, colon, hex-char occur consecutively. -/
def TripleDigestProp (l : List Char) : Prop :=
  ∃ pre a h post, l = pre ++ a :: ':' :: h :: post ∧
    isDigestNameChar a = true ∧ isHexChar h = true

theorem hasDigestMatch_cons_of (x : Char) (l : List Char) (h : hasDigestMatch l = true) :
    hasDigestMatch (x :: l) = true := by
  cases l with
  | nil => simp [hasDigestMatch] at h
  | cons a t =>
    cases t with
    | nil => simp [hasDigestMatch] at h
    | cons b t2 =>
      cases t2 with
      | nil => simp [hasDigestMatch] at h
      | cons c rest =>
        rw [show hasDigestMatch (x :: a :: b :: c :: rest) =
          ((isDigestNameChar x && (a == ':') && isHexChar b) ||
            hasDigestMatch (a :: b :: c :: rest)) from rfl, h, Bool.or_true]

theorem hasDigestMatch_of_triple (l : List Char) (h : TripleDigestProp l) :
    hasDigestMatch l = true := by
  obtain ⟨pre, a, hx, post, heq, hA, hH⟩ := h
  subst heq
  induction pre with
  | nil =>
    rw [show hasDigestMatch ([] ++ a :: ':' :: hx :: post) =
      ((isDigestNameChar a && (':' == ':') && isHexChar hx) ||
        hasDigestMatch (':' :: hx :: post)) from rfl]
    simp [hA, hH]
  | cons x t ih =>
    rw [List.cons_append]
    exact hasDigestMatch_cons_of x _ ih

theorem triple_of_hasDigestMatch (l : List Char) (h : hasDigestMatch l = true) :
    TripleDigestProp l := by
  induction l with
  | nil => simp [hasDigestMatch] at h
  | cons x t ih =>
    cases t with
    | nil => simp [hasDigestMatch] at h
    | cons y t2 =>
      cases t2 with
      | nil => simp [hasDigestMatch] at h
      | cons z rest =>
        rw [show hasDigestMatch (x :: y :: z :: rest) =
          ((isDigestNameChar x && (y == ':') && isHexChar z) ||
            hasDigestMatch (y :: z :: rest)) from rfl] at h
        rcases Bool.or_eq_true_iff.mp h with htest | hrec
        · simp only [Bool.and_eq_true, beq_iff_eq] at htest
          obtain ⟨⟨hA, hy⟩, hH⟩ := htest
          exact ⟨[], x, z, rest, by simp [hy], hA, hH⟩
        · obtain ⟨pre, a, hx, post, heq, hA, hH⟩ := ih hrec
          exact ⟨x :: pre, a, hx, post, by rw [heq, List.cons_append], hA, hH⟩

theorem containsDigestProp_iff_triple (s : String) :
    ContainsDigestProp s ↔ TripleDigestProp s.data := by
  constructor
  · rintro ⟨pre, as, hs, post, heq, hane, haA, hhne, hhH⟩
    rcases List.eq_nil_or_concat as with h1 | ⟨as2, a, h2⟩
    · exact absurd h1 hane
    · cases hs with
      | nil => exact absurd rfl hhne
      | cons hh ht =>
        refine ⟨pre ++ as2, a, hh, ht ++ post, ?_, ?_, ?_⟩
        · rw [heq, h2]
          simp [List.concat_eq_append, List.append_assoc]
        · exact haA a (by rw [h2]; simp [List.concat_eq_append])
        · exact hhH hh (by simp)
  · rintro ⟨pre, a, hx, post, heq, hA, hH⟩
    refine ⟨pre, [a], [hx], post, ?_, by simp, ?_, by simp, ?_⟩
    · rw [heq]; simp
    · intro x hxm
      rw [List.mem_singleton.mp hxm]
      exact hA
    · intro x hxm
      rw [List.mem_singleton.mp hxm]
      exact hH

theorem validateDigest_ok_iff (d : String) :
    validateDigest d = .ok () ↔ ContainsDigestProp d := by
  rw [containsDigestProp_iff_triple]
  constructor
  · intro h
    unfold validateDigest at h
    by_cases h0 : d = ""
    · simp [h0] at h
    · by_cases h1 : hasDigestMatch d.data = true
      · exact triple_of_hasDigestMatch _ h1
      · simp [h0, h1] at h
  · intro h
    have hm := hasDigestMatch_of_triple _ h
    have h0 : d ≠ "" := by
      intro h0
      rw [h0] at hm
      exact absurd hm (by decide)
    unfold validateDigest
    simp [h0, hm]

theorem validateTagName_ok_iff (t : String) :
    ValidateTagName t = .ok () ↔ FullTagProp t := by
  constructor
  · intro h
    unfold ValidateTagName at h
    by_cases h0 : t = ""
    · simp [h0] at h
    · by_cases h1 : matchesTagPattern t = true
      · unfold matchesTagPattern at h1
        cases hd : t.data with
        | nil => rw [hd] at h1; simp at h1
        | cons c rest =>
          rw [hd] at h1
          simp only [Bool.and_eq_true, decide_eq_true_eq, List.all_eq_true] at h1
          obtain ⟨⟨hw, hlen⟩, hall⟩ := h1
          exact ⟨c, rest, hd, hw, hlen, hall⟩
      · simp [h0, h1] at h
  · rintro ⟨c, rest, hd, hw, hlen, hall⟩
    have h0 : t ≠ "" := by
      intro h0
      rw [h0] at hd
      simp at hd
    have h1 : matchesTagPattern t = true := by
      unfold matchesTagPattern
      rw [hd]
      simp [hw, hlen, List.all_eq_true.mpr hall]
    unfold ValidateTagName
    simp [h0, h1]

theorem validateRepoName_ok_iff (r : String) :
    validateRepoName r = .ok () ↔ (r ≠ "" ∧ r ≠ "scratch") := by
  unfold validateRepoName
  by_cases h0 : r = "" <;> by_cases h1 : r = "scratch" <;> simp [h0, h1]

/-- Claim C9 counterexample: the digest "a:b!" does not match the pattern as a
whole string, yet `validateDigest` accepts it (the regex is unanchored, so
`MatchString` only asks for a matching substring) and `SetDigest` consequently
succeeds where the claim requires a validation failure. -/
theorem digest_validation_unanchored_counterexample :
    validateDigest "a:b!" = .ok () ∧ ¬ FullDigestProp "a:b!" ∧
    (SetDigest (specCtx ["docker.io"]) (fun _ => .ok "idZ") [] "r.io/foo" "a:b!" "img"
        false true).err = none := by
  refine ⟨by decide, ?_, by decide⟩
  rw [fullDigestProp_iff_bool]
  decide

/-- Claim C9 amended: `validateRepoName` rejects exactly "" and "scratch";
`ValidateTagName` accepts exactly the whole-string matches of
`^[\w][\w.-]{0,127}$`; `validateDigest` accepts exactly the strings that
CONTAIN a substring matching `[a-zA-Z0-9-_+.]+:[a-fA-F0-9]+` (the pattern
being unanchored), not only the whole-string matches. -/
theorem validation_semantics :
    (∀ r, validateRepoName r = .ok () ↔ (r ≠ "" ∧ r ≠ "scratch")) ∧
    (∀ t, ValidateTagName t = .ok () ↔ FullTagProp t) ∧
    (∀ d, validateDigest d = .ok () ↔ ContainsDigestProp d) :=
  ⟨validateRepoName_ok_iff, validateTagName_ok_iff, validateDigest_ok_iff⟩

/-- Claim C9 witness. -/
theorem validation_semantics_witness :
    ValidateTagName "latest" = .ok () ∧ validateDigest "sha256:ab" = .ok () ∧
    validateRepoName "busybox" = .ok () :=
  ⟨(validation_semantics.2.1 "latest").mpr
      ⟨'l', ['a', 't', 'e', 's', 't'], rfl, by decide, by decide, by decide⟩,
    (validation_semantics.2.2 "sha256:ab").mpr
      ⟨[], ['s', 'h', 'a', '2', '5', '6'], ['a', 'b'], [], rfl, by decide, by decide,
        by decide, by decide⟩,
    (validation_semantics.1 "busybox").mpr ⟨by decide, by decide⟩⟩

example : matchesTagPattern "latest" = true := by decide
example : matchesTagPattern "-bad" = false := by decide
example : hasDigestMatch "sha256:abc".data = true := by decide
example : hasDigestMatch "a:b!".data = true := by decide
example : fullDigestBool "a:b!".data = false := by decide
example : fullDigestBool "sha256:abc".data = true := by decide

end Moby
